import Mathlib

/-!
Shallow embedding of the peft-llm-code repository (src/test.py, src/generate.py,
src/utils.py) and proofs about its specification claims.

Strings from Python are modelled as Lean `String` / `List Char`; token id
tensors as `List (List Nat)`; external library calls (tokenizer decoding,
FAISS similarity search, metric computation, dataset shuffling, JSON parsing)
as abstract function parameters, since their code is not part of this
repository.
-/

namespace PeftLlmCode

/-! ## test.py -/

/-- Python substring containment `sub in s` (used by `stop_string in decoded_generation`). -/
def strContains (s sub : String) : Bool :=
  (List.range (s.data.length + 1)).any (fun i => sub.data.isPrefixOf (s.data.drop i))

/-- `EndOfFunctionCriteria.__call__` from src/test.py:
decodes `input_ids[:, start_length:]` with the tokenizer, then for each decoded
generation records whether any end-of-function string occurs in it, and returns
the conjunction over the batch.  The tokenizer's `batch_decode` is modelled as
mapping an abstract `decode` over the rows of the sliced batch. -/
def endOfFunctionCriteriaCall (decode : List Nat → String) (start_length : Nat)
    (eof_strings : List String) (input_ids : List (List Nat)) : Bool :=
  let decoded_generations := (input_ids.map (fun seq => seq.drop start_length)).map decode
  let done := decoded_generations.map
    (fun decoded_generation => eof_strings.any (fun stop_string => strContains decoded_generation stop_string))
  done.all (fun b => b)

/-- `HUMAN_EVAL_EOF_STRINGS` from src/test.py, as character lists. -/
def HUMAN_EVAL_EOF_STRINGS : List (List Char) :=
  ["\nclass".data, "\ndef".data, "\n#".data, "\n@".data, "\nprint".data, "\nif".data]

/-- `re.split("(m1|m2|...)", string)` for a fixed alternation of literal markers,
none of which is empty and none of which is a prefix of another (true of
`HUMAN_EVAL_EOF_STRINGS`): scan left to right; at each position try the markers
in alternation order; on a match emit the text chunk so far and the matched
marker (the capture group) and resume after the marker.  The result alternates
text chunks and markers, beginning and ending with a (possibly empty) text
chunk.  The `some []` case of `find?` cannot arise for nonempty markers and is
treated as no match so that the recursion terminates. -/
def reSplitAux (ms : List (List Char)) : Nat → List Char → List (List Char)
  | _, [] => [[]]
  | 0, l => [l]
  | fuel + 1, c :: rest =>
    match ms.find? (fun m => m.isPrefixOf (c :: rest)) with
    | some (x :: xs) => [] :: (x :: xs) :: reSplitAux ms fuel (rest.drop xs.length)
    | _ =>
      match reSplitAux ms fuel rest with
      | [] => [[c]]
      | h :: t => (c :: h) :: t

/-- `re.split` for the fixed marker alternation, with the fuel instantiated to
the length of the input (enough for the whole scan, since every step consumes
at least one character). -/
def reSplit (ms : List (List Char)) (l : List Char) : List (List Char) :=
  reSplitAux ms l.length l

/-- `remove_last_block` from src/test.py:
`string_list = re.split("(%s)" % "|".join(HUMAN_EVAL_EOF_STRINGS), string)`
followed by `return "".join(string_list[:-2])`. -/
def remove_last_block (string : String) : String :=
  let string_list := reSplit HUMAN_EVAL_EOF_STRINGS string.data
  String.mk (string_list.dropLast.dropLast).flatten

/-- Specification-side predicate: the character list contains at least one
occurrence of a marker of `ms` (some marker is a prefix of some suffix). -/
def hasMarker (ms : List (List Char)) : List Char → Bool
  | [] => false
  | c :: rest => ms.any (fun m => m.isPrefixOf (c :: rest)) || hasMarker ms rest

/-- Specification-side characterization of "the last (leftmost-scan,
non-overlapping) marker occurrence": performs the same left-to-right scan as
`re.split` and returns `some (p, m, t)` where `m` is the LAST marker matched by
the scan, `p` is everything before it and `t` everything after it, or `none`
when the scan matches nowhere. -/
def lastScanMatchSplitAux (ms : List (List Char)) :
    Nat → List Char → Option (List Char × List Char × List Char)
  | _, [] => none
  | 0, _ => none
  | fuel + 1, c :: rest =>
    match ms.find? (fun m => m.isPrefixOf (c :: rest)) with
    | some (x :: xs) =>
      match lastScanMatchSplitAux ms fuel (rest.drop xs.length) with
      | none => some ([], x :: xs, rest.drop xs.length)
      | some (p, m, t) => some ((x :: xs) ++ p, m, t)
    | _ =>
      match lastScanMatchSplitAux ms fuel rest with
      | none => none
      | some (p, m, t) => some (c :: p, m, t)

/-- The last-scan-match characterization at fuel sufficient for the whole
scan. -/
def lastScanMatchSplit (ms : List (List Char)) (l : List Char) :
    Option (List Char × List Char × List Char) :=
  lastScanMatchSplitAux ms l.length l

/-! ## generate.py -/

/-- A chat message `{"role": ..., "content": ...}`. -/
structure ChatMessage where
  role : String
  content : String
deriving DecidableEq, Repr

/-- A `LangchainDocument` as built in `main`: `page_content` holds the
instruction text and `metadata={"code": ...}` holds the reference code. -/
structure LangchainDocument where
  page_content : String
  metadata_code : String
deriving DecidableEq, Repr

/-- A test-split sample as consumed by `prepare_input`: its instruction field
`sample[args.instruction_field]` and its `messages` column. -/
structure Sample where
  instruction : String
  messages : List ChatMessage
deriving DecidableEq, Repr

/-- `prepare_input` from src/generate.py.  `knowledge_base_vectors` is `None`
or a FAISS store, modelled as an abstract `similarity_search` function from a
query and `k` to retrieved documents; calling it through `None` (Python raises
`AttributeError`) is modelled as the `none` result.  When `use_rag` is set the
retrieved documents are flattened into user/assistant message pairs and
prepended to the sample's messages with the last message removed; otherwise
the messages with the last removed are returned as is. -/
def prepare_input (sample : Sample)
    (knowledge_base_vectors : Option (String → Nat → List LangchainDocument))
    (use_rag : Bool) (rag_top_k : Nat) : Option (List ChatMessage) :=
  if use_rag then
    match knowledge_base_vectors with
    | none => none
    | some similarity_search =>
      let retrieved_docs := similarity_search sample.instruction rag_top_k
      let chat_docs := (retrieved_docs.map (fun doc =>
        [⟨"user", doc.page_content⟩, ⟨"assistant", doc.metadata_code⟩])).flatten
      some (chat_docs ++ sample.messages.dropLast)
  else
    some sample.messages.dropLast

/-- A JSON value, as far as this repository's outputs need: strings and
objects (metric result dictionaries are kept abstract as `Json` values). -/
inductive Json where
  | str : String → Json
  | obj : List (String × Json) → Json

/-- `compute_metrics` from src/generate.py.  For `"apps"` the body is a string
literal holding commented-out code marked `@todo` and the function returns the
empty dict; otherwise it computes exact match and chrF with word orders 0 and
2 (chrF++) of the responses against the dataset's reference column.  The
`evaluate` metrics are abstract functions `emCompute` and `chrfCompute`
(taking predictions, references, and for chrF the word order); the dataset's
column access `dataset[field]` is the abstract function `dataset`. -/
def compute_metrics (emCompute : List String → List String → Json)
    (chrfCompute : List String → List (List String) → Nat → Json)
    (dataset_name reference_field : String)
    (responses : List String) (dataset : String → List String) :
    List (String × Json) :=
  if dataset_name = "apps" then
    []
  else
    let references := dataset reference_field
    let results_em := emCompute responses references
    let references_chrf := references.map (fun ref => [ref])
    let results_chrf := chrfCompute responses references_chrf 0
    let results_chrf2 := chrfCompute responses references_chrf 2
    [("em", results_em), ("chrf", results_chrf), ("chrf2", results_chrf2)]

/-- The per-dataset generation configuration set by `main`. -/
structure DatasetConfig where
  max_new_tokens : Nat
  instruction_field : String
  reference_field : String
deriving DecidableEq, Repr

/-- The `if args.dataset_name == "conala" ... elif ... else` block of `main`
that sets `max_new_tokens`, `instruction_field` and `reference_field`. -/
def dataset_config (dataset_name : String) : DatasetConfig :=
  if dataset_name = "conala" then
    ⟨128, "nl", "cmd"⟩
  else if dataset_name = "codealpaca" then
    ⟨512, "prompt", "completion"⟩
  else
    ⟨1024, "question", "solutions"⟩

/-- A training-split example as consumed by the ICL branch of `main`: its
instruction field value and its reference field value. -/
structure TrainExample where
  instruction : String
  reference : String
deriving DecidableEq, Repr

/-- The reference text used for an ICL exemplar: for `"apps"` the reference
field is parsed as JSON and its first element taken
(`json.loads(example[args.reference_field])[0]`, with `json.loads` modelled
as an abstract `json_loads_list`), otherwise the reference field verbatim. -/
def icl_reference (json_loads_list : String → List String) (dataset_name : String)
    (ex : TrainExample) : String :=
  if dataset_name = "apps" then (json_loads_list ex.reference).headD ""
  else ex.reference

/-- The ICL branch of `main`: take the first `num_icl_examples` examples of the
training split shuffled with `icl_seed` (shuffling is the abstract `shuffle`),
build `chat_icl` as one user/assistant pair per example, and map
`add_icl_prompt` over the test split, prepending `chat_icl` to every sample's
messages. -/
def main_icl (shuffle : Nat → List TrainExample → List TrainExample)
    (json_loads_list : String → List String) (dataset_name : String)
    (icl_seed num_icl_examples : Nat) (train : List TrainExample)
    (test : List Sample) : List Sample :=
  let examples := (shuffle icl_seed train).take num_icl_examples
  let chat_icl := (examples.map (fun ex =>
    [ChatMessage.mk "user" ex.instruction,
     ChatMessage.mk "assistant" (icl_reference json_loads_list dataset_name ex)])).flatten
  test.map (fun sample => { sample with messages := chat_icl ++ sample.messages })

/-- The value `knowledge_base_vectors` holds when `generate` is called from
`main`: it is initialized to `None`, left untouched by the `if args.use_icl`
branch, and set to the FAISS store (abstracted as `built`) only in the
`elif args.use_rag` branch. -/
def main_knowledge_base_vectors (use_icl use_rag : Bool)
    (built : String → Nat → List LangchainDocument) :
    Option (String → Nat → List LangchainDocument) :=
  if use_icl then none
  else if use_rag then some built
  else none

/-- The results directory chosen by `main`:
`f"{args.peft_checkpoint_path}/results" if args.peft_checkpoint_path else
f"runs/{args.model_name}/results"`.  Python truthiness makes both `None` and
the empty string fall to the `runs/...` branch. -/
def output_dir (peft_checkpoint_path : Option String) (model_name : String) : String :=
  match peft_checkpoint_path with
  | some p => if p ≠ "" then p ++ "/results" else "runs/" ++ model_name ++ "/results"
  | none => "runs/" ++ model_name ++ "/results"

/-- The `file_suffix` built by `main` from the dataset name, the temperature
(already formatted as a string), and the ICL/RAG options. -/
def file_suffix (dataset_name temperature_str : String) (use_icl use_rag : Bool)
    (num_icl_examples icl_seed rag_top_k : Nat) : String :=
  let base := dataset_name ++ "_t" ++ temperature_str
  if use_icl then base ++ "_icl_n" ++ toString num_icl_examples ++ "_s" ++ toString icl_seed
  else if use_rag then base ++ "_rag_k" ++ toString rag_top_k
  else base

/-- The metrics dictionary written by `main`: the computed metrics augmented
with the GPU-memory and execution-time entries
(`{**metrics, "init_gpu_memory": f"{...} MB", ...}`; the three keys are fresh,
so the dict merge is an append). -/
def metrics_augmented (metrics : List (String × Json))
    (init_gpu_memory peak_gpu_memory total_execution_time : String) :
    List (String × Json) :=
  metrics ++
    [("init_gpu_memory", Json.str (init_gpu_memory ++ " MB")),
     ("peak_gpu_memory", Json.str (peak_gpu_memory ++ " MB")),
     ("total_execution_time", Json.str (total_execution_time ++ " seconds"))]

/-- The content of the responses JSONL file written by `main`: one line per
response, in order, each line `json.dump({"response": response})`. -/
def responses_jsonl (responses : List String) : List Json :=
  responses.map (fun response => Json.obj [("response", Json.str response)])

/-- Path of the metrics file written by `main`. -/
def metrics_path (dir suffix : String) : String :=
  dir ++ "/metrics_" ++ suffix ++ ".jsonl"

/-- Path of the responses file written by `main`. -/
def responses_path (dir suffix : String) : String :=
  dir ++ "/responses_" ++ suffix ++ ".jsonl"

/-! ## utils.py -/

/-- An ODEX test example, as far as `load_odex_test_dataset` inspects it. -/
structure OdexExample where
  intent : String
deriving DecidableEq, Repr

/-- `load_odex_test_dataset` from src/utils.py: filters the ODEX test split,
keeping the examples whose `intent` does not occur among the `nl` values of
the conala training split
(`dataset.filter(lambda example: example["intent"] not in conala["nl"])`). -/
def load_odex_test_dataset (odex_test : List OdexExample)
    (conala_train_nl : List String) : List OdexExample :=
  odex_test.filter (fun ex => !(conala_train_nl.contains ex.intent))

/-! ## Helper lemmas -/

theorem isPrefixOf_eq_append {p l : List Char} (h : p.isPrefixOf l = true) :
    l = p ++ l.drop p.length :=
  (List.prefix_iff_eq_append.mp (List.isPrefixOf_iff_prefix.mp h)).symm

/-- When every marker is nonempty, `find?` over the markers returns `none` or
a nonempty marker. -/
theorem find?_prefix_cases (ms : List (List Char)) (l : List Char)
    (hms : ∀ m ∈ ms, m ≠ []) :
    ms.find? (fun m => m.isPrefixOf l) = none ∨
    ∃ x xs, ms.find? (fun m => m.isPrefixOf l) = some (x :: xs) := by
  cases hfind : ms.find? (fun m => m.isPrefixOf l) with
  | none => exact Or.inl rfl
  | some m =>
    cases m with
    | nil => exact absurd rfl (hms [] (List.mem_of_find?_eq_some hfind))
    | cons x xs => exact Or.inr ⟨x, xs, rfl⟩

/-- Flattening a list of two-element lists doubles the length. -/
theorem length_flatten_pairs {α β : Type} (f g : α → β) (l : List α) :
    ((l.map (fun a => [f a, g a])).flatten).length = 2 * l.length := by
  induction l with
  | nil => simp
  | cons a l ih =>
    simp only [List.map_cons, List.flatten_cons, List.length_append, List.length_cons,
      List.length_nil, ih]
    omega

/-- Joint shape lemma for the scan: where the last-match characterization finds
nothing, `re.split` returns the whole string as a single chunk; where it finds
a last match `(p, m, t)`, `re.split` returns some nonempty chunk list
flattening to `p`, followed by exactly `[m, t]`. -/
theorem reSplitAux_lastScanMatchSplitAux (ms : List (List Char))
    (hms : ∀ m ∈ ms, m ≠ []) :
    ∀ (fuel : Nat) (l : List Char), l.length ≤ fuel →
      (lastScanMatchSplitAux ms fuel l = none → reSplitAux ms fuel l = [l]) ∧
      (∀ p m t, lastScanMatchSplitAux ms fuel l = some (p, m, t) →
        ∃ front, front ≠ [] ∧ front.flatten = p ∧
          reSplitAux ms fuel l = front ++ [m, t]) := by
  intro fuel
  induction fuel with
  | zero =>
    intro l hl
    have : l = [] := List.length_eq_zero.mp (Nat.le_zero.mp hl)
    subst this
    exact ⟨fun _ => rfl, fun p m t h => by simp [lastScanMatchSplitAux] at h⟩
  | succ fuel ih =>
    intro l hl
    cases l with
    | nil => exact ⟨fun _ => rfl, fun p m t h => by simp [lastScanMatchSplitAux] at h⟩
    | cons c rest =>
      have hrest_len : rest.length ≤ fuel := by
        simp only [List.length_cons] at hl; omega
      rcases find?_prefix_cases ms (c :: rest) hms with hfind | ⟨x, xs, hfind⟩
      · have hrest := ih rest hrest_len
        constructor
        · intro hnone
          simp only [lastScanMatchSplitAux, hfind] at hnone
          simp only [reSplitAux, hfind]
          cases hrec : lastScanMatchSplitAux ms fuel rest with
          | none => rw [hrest.1 hrec]
          | some pmt =>
            obtain ⟨p, m, t⟩ := pmt
            rw [hrec] at hnone
            simp at hnone
        · intro p m t hsome
          simp only [lastScanMatchSplitAux, hfind] at hsome
          simp only [reSplitAux, hfind]
          cases hrec : lastScanMatchSplitAux ms fuel rest with
          | none => rw [hrec] at hsome; simp at hsome
          | some pmt =>
            obtain ⟨p', m', t'⟩ := pmt
            rw [hrec] at hsome
            simp only [Option.some.injEq, Prod.mk.injEq] at hsome
            obtain ⟨hp, hm, ht⟩ := hsome
            obtain ⟨front, hfne, hflat, hre⟩ := hrest.2 p' m' t' hrec
            cases front with
            | nil => exact absurd rfl hfne
            | cons f0 fr =>
              refine ⟨(c :: f0) :: fr, by simp, ?_, ?_⟩
              · simp only [List.flatten_cons] at hflat ⊢
                rw [← hp, ← hflat]
                simp
              · rw [hre, ← hm, ← ht]
                simp
      · have hpre : (x :: xs).isPrefixOf (c :: rest) = true := by
          have h2 := List.find?_some hfind
          simpa using h2
        have htail_len : (rest.drop xs.length).length ≤ fuel := by
          simp only [List.length_drop, List.length_cons] at hrest_len ⊢
          omega
        have htail := ih (rest.drop xs.length) htail_len
        constructor
        · intro hnone
          simp only [lastScanMatchSplitAux, hfind] at hnone
          cases hrec : lastScanMatchSplitAux ms fuel (rest.drop xs.length) with
          | none => rw [hrec] at hnone; simp at hnone
          | some pmt =>
            obtain ⟨p, m, t⟩ := pmt
            rw [hrec] at hnone
            simp at hnone
        · intro p m t hsome
          simp only [lastScanMatchSplitAux, hfind] at hsome
          simp only [reSplitAux, hfind]
          cases hrec : lastScanMatchSplitAux ms fuel (rest.drop xs.length) with
          | none =>
            rw [hrec] at hsome
            simp only [Option.some.injEq, Prod.mk.injEq] at hsome
            obtain ⟨hp, hm, ht⟩ := hsome
            rw [htail.1 hrec, ← hm, ← ht]
            exact ⟨[[]], by simp, by simp [← hp], rfl⟩
          | some pmt =>
            obtain ⟨p', m', t'⟩ := pmt
            rw [hrec] at hsome
            simp only [Option.some.injEq, Prod.mk.injEq] at hsome
            obtain ⟨hp, hm, ht⟩ := hsome
            obtain ⟨front, hfne, hflat, hre⟩ := htail.2 p' m' t' hrec
            refine ⟨[] :: (x :: xs) :: front, by simp, ?_, ?_⟩
            · simp [hflat, ← hp]
            · rw [hre, ← hm, ← ht]
              simp

/-- The last-match characterization splits the string: when it returns
`some (p, m, t)`, the string is `p ++ m ++ t` and `m` is one of the markers. -/
theorem lastScanMatchSplitAux_eq_append (ms : List (List Char)) :
    ∀ (fuel : Nat) (l : List Char) (p m t : List Char),
      lastScanMatchSplitAux ms fuel l = some (p, m, t) → l = p ++ m ++ t ∧ m ∈ ms := by
  intro fuel
  induction fuel with
  | zero =>
    intro l p m t h
    cases l <;> simp [lastScanMatchSplitAux] at h
  | succ fuel ih =>
    intro l p m t h
    cases l with
    | nil => simp [lastScanMatchSplitAux] at h
    | cons c rest =>
      cases hfind : ms.find? (fun m => m.isPrefixOf (c :: rest)) with
      | none =>
        simp only [lastScanMatchSplitAux, hfind] at h
        cases hrec : lastScanMatchSplitAux ms fuel rest with
        | none => rw [hrec] at h; simp at h
        | some pmt =>
          obtain ⟨p', m', t'⟩ := pmt
          rw [hrec] at h
          simp only [Option.some.injEq, Prod.mk.injEq] at h
          obtain ⟨hp, hm, ht⟩ := h
          obtain ⟨happ, hmem⟩ := ih rest p' m' t' hrec
          subst hp hm ht
          simp [happ, hmem]
      | some mm =>
        cases mm with
        | nil =>
          simp only [lastScanMatchSplitAux, hfind] at h
          cases hrec : lastScanMatchSplitAux ms fuel rest with
          | none => rw [hrec] at h; simp at h
          | some pmt =>
            obtain ⟨p', m', t'⟩ := pmt
            rw [hrec] at h
            simp only [Option.some.injEq, Prod.mk.injEq] at h
            obtain ⟨hp, hm, ht⟩ := h
            obtain ⟨happ, hmem⟩ := ih rest p' m' t' hrec
            subst hp hm ht
            simp [happ, hmem]
        | cons x xs =>
          have hpre : (x :: xs).isPrefixOf (c :: rest) = true := by
            have h2 := List.find?_some hfind
            simpa using h2
          have hsplit : c :: rest = (x :: xs) ++ rest.drop xs.length := by
            have h3 := isPrefixOf_eq_append hpre
            simpa using h3
          simp only [lastScanMatchSplitAux, hfind] at h
          cases hrec : lastScanMatchSplitAux ms fuel (rest.drop xs.length) with
          | none =>
            rw [hrec] at h
            simp only [Option.some.injEq, Prod.mk.injEq] at h
            obtain ⟨hp, hm, ht⟩ := h
            subst hp hm ht
            exact ⟨by simpa using hsplit, List.mem_of_find?_eq_some hfind⟩
          | some pmt =>
            obtain ⟨p', m', t'⟩ := pmt
            rw [hrec] at h
            simp only [Option.some.injEq, Prod.mk.injEq] at h
            obtain ⟨hp, hm, ht⟩ := h
            obtain ⟨happ, hmem⟩ := ih _ p' m' t' hrec
            subst hp hm ht
            rw [hsplit, happ]
            simp [hmem]

/-- The last-match characterization returns `none` exactly on strings with no
marker occurrence. -/
theorem lastScanMatchSplitAux_eq_none_iff (ms : List (List Char))
    (hms : ∀ m ∈ ms, m ≠ []) :
    ∀ (fuel : Nat) (l : List Char), l.length ≤ fuel →
      (lastScanMatchSplitAux ms fuel l = none ↔ hasMarker ms l = false) := by
  intro fuel
  induction fuel with
  | zero =>
    intro l hl
    have : l = [] := List.length_eq_zero.mp (Nat.le_zero.mp hl)
    subst this
    simp [lastScanMatchSplitAux, hasMarker]
  | succ fuel ih =>
    intro l hl
    cases l with
    | nil => simp [lastScanMatchSplitAux, hasMarker]
    | cons c rest =>
      have hrest_len : rest.length ≤ fuel := by
        simp only [List.length_cons] at hl; omega
      rcases find?_prefix_cases ms (c :: rest) hms with hfind | ⟨x, xs, hfind⟩
      · have hany : ms.any (fun m => m.isPrefixOf (c :: rest)) = false := by
          simp only [List.any_eq_false]
          intro m hm
          have := List.find?_eq_none.mp hfind m hm
          simpa using this
        simp only [lastScanMatchSplitAux, hfind, hasMarker, hany, Bool.false_or]
        rw [← ih rest hrest_len]
        cases hrec : lastScanMatchSplitAux ms fuel rest with
        | none => simp
        | some pmt => obtain ⟨p, m, t⟩ := pmt; simp
      · have hany : ms.any (fun m => m.isPrefixOf (c :: rest)) = true := by
          refine List.any_eq_true.mpr ⟨x :: xs, List.mem_of_find?_eq_some hfind, ?_⟩
          have h2 := List.find?_some hfind
          simpa using h2
        simp only [lastScanMatchSplitAux, hfind, hasMarker, hany, Bool.true_or]
        cases hrec : lastScanMatchSplitAux ms fuel (rest.drop xs.length) with
        | none => simp
        | some pmt => obtain ⟨p, m, t⟩ := pmt; simp

/-! ## Claim theorems -/

/-- C1: `EndOfFunctionCriteria.__call__` returns `True` if and only if every
sequence in the batch, decoded from position `start_length` onward, contains
at least one of the end-of-function strings; and its result depends only on
the tokens from `start_length` onward, so the prompt tokens are never
examined. -/
theorem endOfFunctionCriteria_call_spec (decode : List Nat → String)
    (start_length : Nat) (eof_strings : List String) (input_ids : List (List Nat)) :
    (endOfFunctionCriteriaCall decode start_length eof_strings input_ids = true ↔
      ∀ seq ∈ input_ids, ∃ stop ∈ eof_strings,
        strContains (decode (seq.drop start_length)) stop = true) ∧
    (∀ input_ids2 : List (List Nat),
      input_ids.map (fun seq => seq.drop start_length) =
        input_ids2.map (fun seq => seq.drop start_length) →
      endOfFunctionCriteriaCall decode start_length eof_strings input_ids =
        endOfFunctionCriteriaCall decode start_length eof_strings input_ids2) := by
  constructor
  · simp [endOfFunctionCriteriaCall, List.all_eq_true, List.any_eq_true]
  · intro input_ids2 hmap
    simp only [endOfFunctionCriteriaCall]
    rw [hmap]

/-- Witness for C1: two batches that agree after the prompt get the same
verdict. -/
theorem endOfFunctionCriteria_call_spec_witness :
    endOfFunctionCriteriaCall (fun ts => String.mk (ts.map (fun n => Char.ofNat (n + 65))))
      1 ["B"] [[0, 1], [9, 1]] =
    endOfFunctionCriteriaCall (fun ts => String.mk (ts.map (fun n => Char.ofNat (n + 65))))
      1 ["B"] [[5, 1], [7, 1]] :=
  (endOfFunctionCriteria_call_spec (fun ts => String.mk (ts.map (fun n => Char.ofNat (n + 65))))
    1 ["B"] [[0, 1], [9, 1]]).2 [[5, 1], [7, 1]] rfl

/-- C2: on a string with at least one marker occurrence, `remove_last_block`
returns the prefix up to but not including the last marker matched by the
leftmost, non-overlapping scan: the string factors as `p ++ m ++ t` with `m`
the scan's last matched marker, and the result is exactly `p`. -/
theorem remove_last_block_spec (s : String)
    (h : hasMarker HUMAN_EVAL_EOF_STRINGS s.data = true) :
    ∃ p m t, lastScanMatchSplit HUMAN_EVAL_EOF_STRINGS s.data = some (p, m, t) ∧
      m ∈ HUMAN_EVAL_EOF_STRINGS ∧ s.data = p ++ m ++ t ∧
      remove_last_block s = String.mk p := by
  have hms : ∀ m ∈ HUMAN_EVAL_EOF_STRINGS, m ≠ [] := by decide
  cases hlms : lastScanMatchSplit HUMAN_EVAL_EOF_STRINGS s.data with
  | none =>
    have hlms' : lastScanMatchSplitAux HUMAN_EVAL_EOF_STRINGS s.data.length s.data = none := hlms
    have hfalse :=
      (lastScanMatchSplitAux_eq_none_iff _ hms s.data.length s.data le_rfl).1 hlms'
    rw [h] at hfalse
    exact absurd hfalse (by simp)
  | some pmt =>
    obtain ⟨p, m, t⟩ := pmt
    have hlms' : lastScanMatchSplitAux HUMAN_EVAL_EOF_STRINGS s.data.length s.data =
        some (p, m, t) := hlms
    obtain ⟨happ, hmem⟩ :=
      lastScanMatchSplitAux_eq_append _ s.data.length s.data p m t hlms'
    obtain ⟨front, hfne, hflat, hre⟩ :=
      (reSplitAux_lastScanMatchSplitAux _ hms s.data.length s.data le_rfl).2 p m t hlms'
    refine ⟨p, m, t, rfl, hmem, happ, ?_⟩
    have hre' : reSplit HUMAN_EVAL_EOF_STRINGS s.data = front ++ [m, t] := hre
    have hdrop : (front ++ [m, t]).dropLast.dropLast = front := by
      have h1 : front ++ [m, t] = (front ++ [m]) ++ [t] := by simp
      rw [h1, List.dropLast_concat, List.dropLast_concat]
    simp only [remove_last_block, hre', hdrop, hflat]

/-- Witness for C2: `"a\ndef b\nif c"` is trimmed at the final `"\nif"`. -/
theorem remove_last_block_spec_witness :
    remove_last_block "a\ndef b\nif c" = "a\ndef b" := by
  obtain ⟨p, m, t, hlms, -, -, hres⟩ := remove_last_block_spec "a\ndef b\nif c" (by decide)
  have hval : lastScanMatchSplit HUMAN_EVAL_EOF_STRINGS "a\ndef b\nif c".data =
      some ("a\ndef b".data, "\nif".data, " c".data) := by decide
  rw [hval] at hlms
  simp only [Option.some.injEq, Prod.mk.injEq] at hlms
  rw [hres, ← hlms.1]

/-- C8: on a string with no marker occurrence at all, `remove_last_block`
returns the empty string, discarding the generation entirely. -/
theorem remove_last_block_no_marker (s : String)
    (h : hasMarker HUMAN_EVAL_EOF_STRINGS s.data = false) :
    remove_last_block s = "" := by
  have hms : ∀ m ∈ HUMAN_EVAL_EOF_STRINGS, m ≠ [] := by decide
  have hnone : lastScanMatchSplitAux HUMAN_EVAL_EOF_STRINGS s.data.length s.data = none :=
    (lastScanMatchSplitAux_eq_none_iff _ hms s.data.length s.data le_rfl).2 h
  have hre : reSplit HUMAN_EVAL_EOF_STRINGS s.data = [s.data] :=
    (reSplitAux_lastScanMatchSplitAux _ hms s.data.length s.data le_rfl).1 hnone
  simp only [remove_last_block, hre]
  rfl

/-- Witness for C8: a generation without any end-of-function marker is
discarded. -/
theorem remove_last_block_no_marker_witness :
    remove_last_block "print(1)" = "" :=
  remove_last_block_no_marker "print(1)" (by decide)

/-- C3 counterexample: for the apps dataset `compute_metrics` does NOT return
a code-execution-based evaluation — the `apps_metric` call sits inside a
string literal marked `@todo` and the function returns the empty dict, here
at a concrete nonempty response list. -/
theorem compute_metrics_apps_counterexample :
    compute_metrics (fun _ _ => Json.str "em") (fun _ _ _ => Json.str "chrf")
      "apps" "solutions" ["print(1)"] (fun _ => ["ref"]) = [] := rfl

/-- C3 (amended): `compute_metrics` returns exact-match and chrF/chrF++
scores of the responses against the dataset's reference field for non-apps
datasets, and the empty metrics dictionary for the apps dataset, whose
code-execution-based evaluation is commented out pending a dependency fix. -/
theorem compute_metrics_spec (emCompute : List String → List String → Json)
    (chrfCompute : List String → List (List String) → Nat → Json)
    (dataset_name reference_field : String)
    (responses : List String) (dataset : String → List String) :
    (dataset_name = "apps" →
      compute_metrics emCompute chrfCompute dataset_name reference_field responses dataset = []) ∧
    (dataset_name ≠ "apps" →
      compute_metrics emCompute chrfCompute dataset_name reference_field responses dataset =
        [("em", emCompute responses (dataset reference_field)),
         ("chrf", chrfCompute responses ((dataset reference_field).map (fun ref => [ref])) 0),
         ("chrf2", chrfCompute responses ((dataset reference_field).map (fun ref => [ref])) 2)]) := by
  constructor
  · intro h
    simp [compute_metrics, h]
  · intro h
    simp [compute_metrics, h]

/-- Witness for C3 (amended): on a non-apps dataset the three scores are
computed against the reference column. -/
theorem compute_metrics_spec_witness :
    compute_metrics (fun _ _ => Json.str "em") (fun _ _ _ => Json.str "chrf")
      "conala" "cmd" ["x"] (fun _ => ["y"]) =
      [("em", Json.str "em"), ("chrf", Json.str "chrf"), ("chrf2", Json.str "chrf")] :=
  ((compute_metrics_spec (fun _ _ => Json.str "em") (fun _ _ _ => Json.str "chrf")
    "conala" "cmd" ["x"] (fun _ => ["y"])).2 (by decide)).trans rfl

/-- C4: with RAG enabled (and the FAISS store returning `rag_top_k` documents
for the query, as `similarity_search(query, k)` does), `prepare_input` returns
the user/assistant pair per retrieved document — `2 * rag_top_k` messages —
prepended to the sample's messages with the final message removed; with RAG
disabled it returns exactly the sample's messages with the final message
removed. -/
theorem prepare_input_spec (sample : Sample)
    (similarity_search : String → Nat → List LangchainDocument) (rag_top_k : Nat)
    (hk : (similarity_search sample.instruction rag_top_k).length = rag_top_k) :
    prepare_input sample (some similarity_search) true rag_top_k =
      some ((((similarity_search sample.instruction rag_top_k).map (fun doc =>
        [ChatMessage.mk "user" doc.page_content,
         ChatMessage.mk "assistant" doc.metadata_code])).flatten) ++
        sample.messages.dropLast) ∧
    ((((similarity_search sample.instruction rag_top_k).map (fun doc =>
        [ChatMessage.mk "user" doc.page_content,
         ChatMessage.mk "assistant" doc.metadata_code])).flatten).length = 2 * rag_top_k) ∧
    (∀ kbv : Option (String → Nat → List LangchainDocument),
      prepare_input sample kbv false rag_top_k = some sample.messages.dropLast) := by
  refine ⟨rfl, ?_, fun kbv => rfl⟩
  have h2 := length_flatten_pairs (fun doc => ChatMessage.mk "user" doc.page_content)
    (fun doc => ChatMessage.mk "assistant" doc.metadata_code)
    (similarity_search sample.instruction rag_top_k)
  rw [hk] at h2
  exact h2

/-- Witness for C4: a store returning two documents yields four RAG messages
followed by the truncated chat. -/
theorem prepare_input_spec_witness :
    prepare_input (Sample.mk "q" [ChatMessage.mk "user" "q", ChatMessage.mk "assistant" "a"])
      (some (fun _ k => List.replicate k (LangchainDocument.mk "pc" "code"))) true 2 =
      some [ChatMessage.mk "user" "pc", ChatMessage.mk "assistant" "code",
            ChatMessage.mk "user" "pc", ChatMessage.mk "assistant" "code",
            ChatMessage.mk "user" "q"] :=
  ((prepare_input_spec (Sample.mk "q" [ChatMessage.mk "user" "q", ChatMessage.mk "assistant" "a"])
    (fun _ k => List.replicate k (LangchainDocument.mk "pc" "code")) 2 rfl).1).trans rfl

/-- C5: with ICL enabled, `main` builds one fixed chat of
`2 * num_icl_examples` messages — a user/assistant pair per example taken from
the first `num_icl_examples` examples of the training split shuffled with
`icl_seed`, parsing the reference as JSON and taking its first element for
apps and using it verbatim otherwise — and prepends this same chat to the
messages of every test sample. -/
theorem main_icl_spec (shuffle : Nat → List TrainExample → List TrainExample)
    (json_loads_list : String → List String) (dataset_name : String)
    (icl_seed num_icl_examples : Nat) (train : List TrainExample) (test : List Sample)
    (h : num_icl_examples ≤ (shuffle icl_seed train).length) :
    ((((shuffle icl_seed train).take num_icl_examples).map (fun ex =>
      [ChatMessage.mk "user" ex.instruction,
       ChatMessage.mk "assistant" (icl_reference json_loads_list dataset_name ex)])).flatten).length
      = 2 * num_icl_examples ∧
    main_icl shuffle json_loads_list dataset_name icl_seed num_icl_examples train test =
      test.map (fun sample =>
        { sample with messages :=
            ((((shuffle icl_seed train).take num_icl_examples).map (fun ex =>
              [ChatMessage.mk "user" ex.instruction,
               ChatMessage.mk "assistant" (icl_reference json_loads_list dataset_name ex)])).flatten)
            ++ sample.messages }) := by
  constructor
  · have h2 := length_flatten_pairs (fun ex => ChatMessage.mk "user" ex.instruction)
      (fun ex => ChatMessage.mk "assistant" (icl_reference json_loads_list dataset_name ex))
      ((shuffle icl_seed train).take num_icl_examples)
    rw [List.length_take, Nat.min_eq_left h] at h2
    exact h2
  · rfl

/-- Witness for C5: one ICL example gives one user/assistant pair prepended to
the test sample's messages. -/
theorem main_icl_spec_witness :
    main_icl (fun _ l => l) (fun s => [s]) "conala" 42 1 [TrainExample.mk "i" "r"]
      [Sample.mk "q" [ChatMessage.mk "user" "q"]] =
      [Sample.mk "q" [ChatMessage.mk "user" "i", ChatMessage.mk "assistant" "r",
                      ChatMessage.mk "user" "q"]] := by
  have h := main_icl_spec (fun _ l => l) (fun s => [s]) "conala" 42 1 [TrainExample.mk "i" "r"]
    [Sample.mk "q" [ChatMessage.mk "user" "q"]] (by decide)
  rw [h.2]
  rfl

/-- C6: `main` sets `max_new_tokens`, `instruction_field` and `reference_field`
from the dataset name: 128/nl/cmd for conala, 512/prompt/completion for
codealpaca, and 1024/question/solutions for every other dataset name. -/
theorem dataset_config_spec :
    dataset_config "conala" = DatasetConfig.mk 128 "nl" "cmd" ∧
    dataset_config "codealpaca" = DatasetConfig.mk 512 "prompt" "completion" ∧
    ∀ name : String, name ≠ "conala" → name ≠ "codealpaca" →
      dataset_config name = DatasetConfig.mk 1024 "question" "solutions" := by
  refine ⟨rfl, rfl, fun name h1 h2 => ?_⟩
  simp [dataset_config, h1, h2]

/-- Witness for C6: an unrecognized dataset name falls to the default
configuration. -/
theorem dataset_config_spec_witness :
    dataset_config "apps" = DatasetConfig.mk 1024 "question" "solutions" :=
  dataset_config_spec.2.2 "apps" (by decide) (by decide)

/-- C7: after generation `main` writes one JSONL line per response, in order,
each the object `{"response": r}`; writes the metrics dictionary augmented
with the `init_gpu_memory`, `peak_gpu_memory` and `total_execution_time`
entries to a distinct metrics file; and places both files under
`<peft_checkpoint_path>/results` when a PEFT checkpoint path is given and
under `runs/<model_name>/results` otherwise. -/
theorem main_outputs_spec (responses : List String) (metrics : List (String × Json))
    (init_gpu_memory peak_gpu_memory total_execution_time : String)
    (model_name dir suffix p : String) :
    (responses_jsonl responses).length = responses.length ∧
    (∀ i : Nat, (responses_jsonl responses)[i]? =
      (responses[i]?).map (fun response => Json.obj [("response", Json.str response)])) ∧
    metrics_augmented metrics init_gpu_memory peak_gpu_memory total_execution_time =
      metrics ++
        [("init_gpu_memory", Json.str (init_gpu_memory ++ " MB")),
         ("peak_gpu_memory", Json.str (peak_gpu_memory ++ " MB")),
         ("total_execution_time", Json.str (total_execution_time ++ " seconds"))] ∧
    (p ≠ "" → output_dir (some p) model_name = p ++ "/results") ∧
    output_dir none model_name = "runs/" ++ model_name ++ "/results" ∧
    metrics_path dir suffix ≠ responses_path dir suffix := by
  refine ⟨by simp [responses_jsonl], ?_, rfl, ?_, rfl, ?_⟩
  · intro i
    simp [responses_jsonl]
  · intro hp
    simp [output_dir, hp]
  · intro hcontra
    have hlen := congrArg String.length hcontra
    simp only [metrics_path, responses_path, String.length_append] at hlen
    have h9 : "/metrics_".length = 9 := rfl
    have h11 : "/responses_".length = 11 := rfl
    rw [h9, h11] at hlen
    omega

/-- Witness for C7: with a PEFT checkpoint path given, the results directory
is the adapter's. -/
theorem main_outputs_spec_witness :
    output_dir (some "ckpt") "m" = "ckpt/results" :=
  (main_outputs_spec [] [] "0" "0" "0" "m" "d" "s" "ckpt").2.2.2.1 (by decide)

/-- C9: in `main`, `knowledge_base_vectors` is only built in the
`elif args.use_rag` branch, which the `if args.use_icl` branch shadows, while
`prepare_input` dereferences it whenever `use_rag` is set; so the
`None`-dereference (modelled as the `none` result) is reached exactly when
`use_icl` and `use_rag` are both enabled. -/
theorem prepare_input_none_deref_iff (sample : Sample)
    (built : String → Nat → List LangchainDocument) (rag_top_k : Nat)
    (use_icl use_rag : Bool) :
    prepare_input sample (main_knowledge_base_vectors use_icl use_rag built)
        use_rag rag_top_k = none ↔
      use_icl = true ∧ use_rag = true := by
  cases use_icl <;> cases use_rag <;>
    simp [prepare_input, main_knowledge_base_vectors]

/-- C10: every example kept by `load_odex_test_dataset` has an intent that
does not occur among the conala training split's nl values: no test example
coincides with a fine-tuning example. -/
theorem load_odex_test_dataset_no_leak (odex_test : List OdexExample)
    (conala_train_nl : List String) (ex : OdexExample)
    (h : ex ∈ load_odex_test_dataset odex_test conala_train_nl) :
    ex.intent ∉ conala_train_nl := by
  simp only [load_odex_test_dataset, List.mem_filter] at h
  simpa using h.2

/-- Witness for C10: an intent absent from the conala nl values survives the
filter and indeed does not occur among them. -/
theorem load_odex_test_dataset_no_leak_witness :
    (OdexExample.mk "a").intent ∉ ["b"] :=
  load_odex_test_dataset_no_leak [OdexExample.mk "a", OdexExample.mk "b"] ["b"]
    (OdexExample.mk "a") (by decide)

end PeftLlmCode
